import Mathlib

set_option maxHeartbeats 1000000

namespace Shelltoken

/-- Rune constant for the double quote character. -/
def dquoteChar : Char := Char.ofNat 34

/-- Rune constant for the single quote character. -/
def squoteChar : Char := Char.ofNat 39

/-- Rune constant for the backslash character. -/
def bsChar : Char := Char.ofNat 92

/-- Rune constant for the equals sign. -/
def eqChar : Char := Char.ofNat 61

/-- Embedding of Go strings.ContainsRune: membership of a rune in a string. -/
def goContainsRune (s : String) (c : Char) : Bool := s.data.contains c

/-- Constant Whitespace = " \t\n\r" from the source. -/
def Whitespace : String := " \t\n\r"

/-- Constant DoubleQuoteShellCharacters = the dollar sign and the backtick. -/
def DoubleQuoteShellCharacters : String := "$`"

/-- Constant OutsideQuoteShellCharacters from the source. -/
def OutsideQuoteShellCharacters : String := "$`!&*()~[]|\x7b\x7d;<>?"

/-- SplitOption bit values, matching the Go iota-generated constants. -/
def SplitNoOptions : Nat := 0

/-- SplitKeepBackslashes: do not remove backslashes. -/
def SplitKeepBackslashes : Nat := 2

/-- SplitIgnoreBackslashes: no escape semantics for backslash. -/
def SplitIgnoreBackslashes : Nat := 4

/-- SplitKeepQuotes: keep quotes in the final argv list. -/
def SplitKeepQuotes : Nat := 8

/-- SplitKeepSeparator: separators end up as their own argv elements. -/
def SplitKeepSeparator : Nat := 16

/-- SplitStopOnShellCharacters: cancel parsing upon the first shell character. -/
def SplitStopOnShellCharacters : Nat := 32

/-- SplitContinueOnShellCharacters: report shell characters but parse to the end. -/
def SplitContinueOnShellCharacters : Nat := 64

/-- SplitIgnoreShellCharacters: ignore shell characters. -/
def SplitIgnoreShellCharacters : Nat := 128

/-- SplitKeepAll: just split but keep all characters. -/
def SplitKeepAll : Nat :=
  SplitKeepQuotes ||| SplitKeepBackslashes ||| SplitKeepSeparator ||| SplitIgnoreShellCharacters

/-- The two error kinds of the tokenizer. -/
inductive SplitErr where
  | shellCharactersFound (pos : Nat)
  | unbalancedQuotes
deriving Repr, DecidableEq

/-- The parseState struct of the source; the token builder is a String,
Go's firstShellPos of -1 is modelled as none. -/
structure ParseState where
  token : String
  hasToken : Bool
  escaped : Bool
  inSingleQuotes : Bool
  inDoubleQuotes : Bool
  firstShellPos : Option Nat
  keepBackSlash : Bool
  keepQuote : Bool
  keepSep : Bool
  stopShell : Bool
  contShell : Bool
  ignShell : Bool
  ignBackslashes : Bool
deriving Repr, DecidableEq

/-- Option folding of newParseState: or-combine, resetting on SplitNoOptions. -/
def resolveOptions (options : List Nat) : Nat :=
  options.foldl (fun acc o => if o = 0 then 0 else acc ||| o) 0

/-- newParseState from the source, with the flag extraction from the bitmask. -/
def newParseState (options : List Nat) : ParseState :=
  let option := resolveOptions options
  let stopShell := option &&& SplitStopOnShellCharacters != 0
  let contShell := option &&& SplitContinueOnShellCharacters != 0
  { token := ""
    hasToken := false
    escaped := false
    inSingleQuotes := false
    inDoubleQuotes := false
    firstShellPos := none
    keepBackSlash := option &&& SplitKeepBackslashes != 0
    keepQuote := option &&& SplitKeepQuotes != 0
    keepSep := option &&& SplitKeepSeparator != 0
    stopShell := stopShell
    contShell := contShell
    ignShell := (!stopShell && !contShell) || option &&& SplitIgnoreShellCharacters != 0
    ignBackslashes := option &&& SplitIgnoreBackslashes != 0 }

/-- Shell-character detection of addToken: the firstShellPos value after the call.
Mirrors the two switch statements of the source's addToken. -/
def shellFlag (p : ParseState) (char : Char) (pos : Nat) : Option Nat :=
  if p.ignShell || p.inSingleQuotes || p.firstShellPos != none then p.firstShellPos
  else if p.inDoubleQuotes then
    if goContainsRune DoubleQuoteShellCharacters char then some pos else p.firstShellPos
  else if goContainsRune OutsideQuoteShellCharacters char then some pos
  else if char = bsChar then
    if !p.keepBackSlash && !p.ignBackslashes then some pos else p.firstShellPos
  else p.firstShellPos

/-- addToken of the source: sets hasToken, runs shell-character detection,
and appends the rune to the token builder. -/
def ParseState.addToken (p : ParseState) (char : Char) (pos : Nat) : ParseState :=
  { p with hasToken := true, firstShellPos := shellFlag p char pos, token := p.token.push char }

/-- First byte of the UTF-8 encoding of a rune; used to model the byte
indexing str[pos+1] in the double-quote backslash lookahead. -/
def firstUtf8Byte (c : Char) : Nat :=
  let v := c.toNat
  if v < 128 then v
  else if v < 2048 then 192 ||| (v >>> 6)
  else if v < 65536 then 224 ||| (v >>> 12)
  else 240 ||| (v >>> 18)

/-- One iteration of the scan loop of SplitQuotes for the rune char at byte
offset pos, with rest the runes after it and strLen the total byte length.
Returns none exactly where the Go code would panic with an out-of-range index
(the lookahead str[pos+1] when the backslash is the final byte). -/
def stepChar (sep : String) (strLen : Nat) (char : Char) (rest : List Char) (pos : Nat)
    (pst : ParseState) (argv : List String) : Option (ParseState × List String) :=
  if pst.escaped then
    some (({ pst with escaped := false }).addToken char pos, argv)
  else if char = bsChar then
    let pst1 := if !pst.ignBackslashes then { pst with escaped := true } else pst
    if pst1.keepBackSlash || pst1.inSingleQuotes then some (pst1.addToken char pos, argv)
    else if pst1.inDoubleQuotes then
      if strLen > pos then
        match rest with
        | [] => none
        | next :: _ =>
          if firstUtf8Byte next = 34 then some (pst1, argv)
          else if firstUtf8Byte next = 92 then some (pst1, argv)
          else some (pst1.addToken char pos, argv)
      else some (pst1, argv)
    else some (pst1, argv)
  else if char = dquoteChar then
    let pst1 := { pst with hasToken := true }
    if !pst1.inSingleQuotes then
      let pst2 := { pst1 with inDoubleQuotes := !pst1.inDoubleQuotes }
      if pst2.keepQuote then some (pst2.addToken char pos, argv) else some (pst2, argv)
    else some (pst1.addToken char pos, argv)
  else if char = squoteChar then
    let pst1 := { pst with hasToken := true }
    if !pst1.inDoubleQuotes then
      let pst2 := { pst1 with inSingleQuotes := !pst1.inSingleQuotes }
      if pst2.keepQuote then some (pst2.addToken char pos, argv) else some (pst2, argv)
    else some (pst1.addToken char pos, argv)
  else if goContainsRune sep char then
    if pst.inSingleQuotes || pst.inDoubleQuotes then some (pst.addToken char pos, argv)
    else if pst.keepSep then
      if pst.hasToken then
        some ({ pst with token := "", hasToken := false },
          argv ++ [pst.token] ++ [String.singleton char])
      else some (pst, argv ++ [String.singleton char])
    else if pst.hasToken then
      some ({ pst with token := "", hasToken := false }, argv ++ [pst.token])
    else some (pst, argv)
  else
    some (pst.addToken char pos, argv)

/-- The code after the scan loop of SplitQuotes: trailing shell-character check,
final token flush, unbalanced-quote check and the continue-and-report error. -/
def finishScan (pst : ParseState) (argv : List String) :
    Option (List String) × Option SplitErr :=
  if pst.stopShell && pst.firstShellPos != none then
    (none, some (.shellCharactersFound (pst.firstShellPos.getD 0)))
  else
    let argv := if pst.hasToken then argv ++ [pst.token] else argv
    if pst.inSingleQuotes || pst.inDoubleQuotes then (none, some .unbalancedQuotes)
    else if pst.contShell && pst.firstShellPos != none then
      (some argv, some (.shellCharactersFound (pst.firstShellPos.getD 0)))
    else (some argv, none)

/-- The scan loop of SplitQuotes over the rune list with running byte offset.
The outer Option is none where the Go code panics; the inner pair is the
(argv, err) return value, with a nil slice modelled as none. -/
def scanLoop (sep : String) (strLen : Nat) :
    List Char → Nat → ParseState → List String →
    Option (Option (List String) × Option SplitErr)
  | [], _, pst, argv => some (finishScan pst argv)
  | char :: rest, pos, pst, argv =>
    if pst.stopShell && pst.firstShellPos != none then
      some (none, some (.shellCharactersFound (pst.firstShellPos.getD 0)))
    else
      match stepChar sep strLen char rest pos pst argv with
      | none => none
      | some (pst', argv') => scanLoop sep strLen rest (pos + char.utf8Size) pst' argv'

/-- SplitQuotes of the source. Returns none where the Go code panics, and
otherwise the pair of the argv slice (none for Go nil) and the error. -/
def SplitQuotes (str sep : String) (options : List Nat) :
    Option (Option (List String) × Option SplitErr) :=
  scanLoop sep str.utf8ByteSize str.data 0 (newParseState options) []

/-- Embedding of Go unicode.IsSpace over the code points it accepts. -/
def goIsSpace (c : Char) : Bool :=
  c = Char.ofNat 9 || c = Char.ofNat 10 || c = Char.ofNat 11 || c = Char.ofNat 12 ||
  c = Char.ofNat 13 || c = Char.ofNat 32 || c = Char.ofNat 133 || c = Char.ofNat 160 ||
  c = Char.ofNat 5760 || (8192 ≤ c.toNat && c.toNat ≤ 8202) || c = Char.ofNat 8232 ||
  c = Char.ofNat 8233 || c = Char.ofNat 8239 || c = Char.ofNat 8287 || c = Char.ofNat 12288

/-- Embedding of Go strings.TrimSpace: drop unicode space from both ends. -/
def TrimSpace (s : String) : String :=
  String.mk (((s.data.dropWhile goIsSpace).reverse.dropWhile goIsSpace).reverse)

/-- ExtractEnvFromArgv of the source: the prefix of tokens containing an equals
sign and the rest from the first token without one; when every token contains
one, the Go loop falls through to a bare return of the nil named values. -/
def ExtractEnvFromArgv : List String → List String × List String
  | [] => ([], [])
  | a :: rest =>
    if !goContainsRune a eqChar then ([], a :: rest)
    else
      match ExtractEnvFromArgv rest with
      | (_, []) => ([], [])
      | (env, args) => (a :: env, args)

/-- Result of SplitLinux and SplitWindows: either an error (env and argv nil)
or the env and argv lists. -/
inductive SplitRes where
  | ok (env argv : List String)
  | err (e : SplitErr)
deriving Repr, DecidableEq

/-- Shared tail of SplitLinux and SplitWindows: call SplitQuotes on the trimmed
input, propagate errors, pad an empty argv and split off the env prefix. -/
def splitWith (str : String) (options : List Nat) : Option SplitRes :=
  match SplitQuotes (TrimSpace str) Whitespace options with
  | none => none
  | some (_, some e) => some (.err e)
  | some (argvOpt, none) =>
    let argv := argvOpt.getD []
    let argv := if argv.length = 0 then argv ++ [""] else argv
    let (env, argv) := ExtractEnvFromArgv argv
    some (.ok env argv)

/-- SplitLinux of the source. -/
def SplitLinux (str : String) : Option SplitRes :=
  splitWith str [SplitStopOnShellCharacters]

/-- SplitWindows of the source, with its combined windowsOptions value. -/
def SplitWindows (str : String) : Option SplitRes :=
  splitWith str [SplitKeepBackslashes ||| SplitIgnoreBackslashes ||| SplitStopOnShellCharacters]

@[simp] theorem addToken_token (p : ParseState) (c : Char) (pos : Nat) :
    (p.addToken c pos).token = p.token.push c := rfl

@[simp] theorem addToken_hasToken (p : ParseState) (c : Char) (pos : Nat) :
    (p.addToken c pos).hasToken = true := rfl

@[simp] theorem addToken_escaped (p : ParseState) (c : Char) (pos : Nat) :
    (p.addToken c pos).escaped = p.escaped := rfl

@[simp] theorem addToken_inSingleQuotes (p : ParseState) (c : Char) (pos : Nat) :
    (p.addToken c pos).inSingleQuotes = p.inSingleQuotes := rfl

@[simp] theorem addToken_inDoubleQuotes (p : ParseState) (c : Char) (pos : Nat) :
    (p.addToken c pos).inDoubleQuotes = p.inDoubleQuotes := rfl

@[simp] theorem addToken_firstShellPos (p : ParseState) (c : Char) (pos : Nat) :
    (p.addToken c pos).firstShellPos = shellFlag p c pos := rfl

@[simp] theorem addToken_keepBackSlash (p : ParseState) (c : Char) (pos : Nat) :
    (p.addToken c pos).keepBackSlash = p.keepBackSlash := rfl

@[simp] theorem addToken_keepQuote (p : ParseState) (c : Char) (pos : Nat) :
    (p.addToken c pos).keepQuote = p.keepQuote := rfl

@[simp] theorem addToken_keepSep (p : ParseState) (c : Char) (pos : Nat) :
    (p.addToken c pos).keepSep = p.keepSep := rfl

@[simp] theorem addToken_stopShell (p : ParseState) (c : Char) (pos : Nat) :
    (p.addToken c pos).stopShell = p.stopShell := rfl

@[simp] theorem addToken_contShell (p : ParseState) (c : Char) (pos : Nat) :
    (p.addToken c pos).contShell = p.contShell := rfl

@[simp] theorem addToken_ignShell (p : ParseState) (c : Char) (pos : Nat) :
    (p.addToken c pos).ignShell = p.ignShell := rfl

@[simp] theorem addToken_ignBackslashes (p : ParseState) (c : Char) (pos : Nat) :
    (p.addToken c pos).ignBackslashes = p.ignBackslashes := rfl

/-- Claim C1 (code bug): on the two-character input of a double quote followed
by a backslash, the scan enters double-quote mode, meets the backslash as the
final byte, and the one-byte lookahead str at index pos+1 is out of range: the
Go code panics, modelled as the none result of SplitQuotes and SplitLinux, so
the tokenizer is not total on this input, contradicting its documented contract
of returning either a token sequence or one of the two documented errors. -/
theorem c1_trailing_backslash_panics :
    SplitQuotes "\x22\x5c" Whitespace [SplitStopOnShellCharacters] = none ∧
    SplitQuotes "\x22\x5c" Whitespace [] = none ∧
    SplitLinux "\x22\x5c" = none := by decide

/-- Claim C2 (code bug): when every token of the input sequence contains an
equals sign, the loop of ExtractEnvFromArgv never hits its return statement and
the function falls through to a bare return of the nil named values: both the
environment list and the argument list come back empty, the tokens are dropped,
and the whole input sequence is not returned as the environment list. -/
theorem c2_all_eq_tokens_dropped :
    ExtractEnvFromArgv ["A=1"] = ([], []) ∧
    ExtractEnvFromArgv ["A=1", "B=2"] = ([], []) ∧
    ([], ([] : List String)) ≠ (["A=1", "B=2"], ([] : List String)) := by decide

/-- Claim C3 (code bug): on the input of a single assignment token, SplitLinux
and SplitWindows return without error but with an empty argument list, because
ExtractEnvFromArgv drops a token sequence made only of assignment tokens; this
contradicts the documented guarantee that the argv list always contains at
least one element. -/
theorem c3_argv_can_be_empty :
    SplitLinux "A=1" = some (.ok [] []) ∧
    SplitWindows "A=1" = some (.ok [] []) := by decide

/-- Claim C4 counterexample: under the Linux profile the input of two
backslashes, a space and the letter a does not parse into the argv list of a
single backslash and the letter a; it fails with ShellCharactersFound at
position 1, because the escaped backslash is flagged by addToken. -/
theorem c4_counterexample :
    SplitLinux "\x5c\x5c a" = some (.err (.shellCharactersFound 1)) := by decide

/-- Claim C4 amended: under the Linux profile the escaped backslash is itself
treated as a shell metacharacter and the parse of the input of two backslashes,
a space and the letter a aborts with ShellCharactersFound at position 1; only
with shell-character detection disabled (SplitQuotes with no options) does the
input tokenize to the single backslash followed by the letter a. -/
theorem c4_escaped_backslash_flagged :
    SplitLinux "\x5c\x5c a" = some (.err (.shellCharactersFound 1)) ∧
    SplitQuotes "\x5c\x5c a" Whitespace [] = some (some ["\x5c", "a"], none) := by decide

/-- Claim C5: shell-metacharacter detection is scoped by quote mode. Inside
single quotes addToken never changes the recorded shell position; inside double
quotes a change of the recorded position can only come from the dollar sign or
the backtick; concretely, SplitLinux fails with ShellCharactersFound on a
double-quoted command substitution and succeeds on a single-quoted one. -/
theorem c5_quote_scoped_detection :
    (∀ (p : ParseState) (c : Char) (pos : Nat), p.inSingleQuotes = true →
      (p.addToken c pos).firstShellPos = p.firstShellPos) ∧
    (∀ (p : ParseState) (c : Char) (pos : Nat), p.inSingleQuotes = false →
      p.inDoubleQuotes = true → (p.addToken c pos).firstShellPos ≠ p.firstShellPos →
      c = Char.ofNat 36 ∨ c = Char.ofNat 96) ∧
    SplitLinux "test \x22$(ls)\x22" = some (.err (.shellCharactersFound 6)) ∧
    SplitLinux "test \x27$(ls)\x27" = some (.ok [] ["test", "$(ls)"]) := by
  refine ⟨?_, ?_, by decide, by decide⟩
  · intro p c pos h
    simp [ParseState.addToken, shellFlag, h]
  · intro p c pos h1 h2 hne
    simp only [addToken_firstShellPos] at hne
    unfold shellFlag at hne
    rw [h1, h2] at hne
    split_ifs at hne with ha hb hc hd he hf <;>
      first
        | exact absurd rfl hne
        | exact absurd rfl hb
        | · have hd2 : (DoubleQuoteShellCharacters).data = [Char.ofNat 36, Char.ofNat 96] := by
              decide
            simp only [goContainsRune, hd2, List.contains_cons, List.contains_nil,
              Bool.or_eq_true, beq_iff_eq, Bool.or_false] at hc
            tauto

/-- Witness for claim C5 at concrete states: a dollar rune added inside single
quotes leaves the recorded shell position unchanged, and a flagged dollar rune
inside double quotes is one of the two double-quote shell characters. -/
theorem c5_quote_scoped_detection_witness :
    (({ newParseState [SplitStopOnShellCharacters] with
        inSingleQuotes := true }).addToken (Char.ofNat 36) 0).firstShellPos =
      ({ newParseState [SplitStopOnShellCharacters] with
        inSingleQuotes := true } : ParseState).firstShellPos ∧
    (Char.ofNat 36 = Char.ofNat 36 ∨ Char.ofNat 36 = Char.ofNat 96) :=
  ⟨c5_quote_scoped_detection.1 _ _ 0 rfl,
   c5_quote_scoped_detection.2.1
     { newParseState [SplitStopOnShellCharacters] with inDoubleQuotes := true }
     (Char.ofNat 36) 0 rfl rfl (by decide)⟩

theorem stepChar_flags {sep : String} {L : Nat} {c : Char} {rest : List Char} {pos : Nat}
    {pst : ParseState} {argv : List String} {pst' : ParseState} {argv' : List String}
    (h : stepChar sep L c rest pos pst argv = some (pst', argv')) :
    pst'.stopShell = pst.stopShell ∧ pst'.contShell = pst.contShell ∧
    pst'.ignShell = pst.ignShell ∧ pst'.ignBackslashes = pst.ignBackslashes ∧
    pst'.keepBackSlash = pst.keepBackSlash ∧ pst'.keepQuote = pst.keepQuote ∧
    pst'.keepSep = pst.keepSep := by
  cases hib : pst.ignBackslashes <;>
    simp only [stepChar, hib, Bool.not_false, Bool.not_true, if_true, if_false] at h <;>
    repeat' split at h
  all_goals
    first
      | exact Option.noConfusion h
      | (injection h with h; cases h; simp [hib])

theorem stepChar_firstShellPos {sep : String} {L : Nat} {c : Char} {rest : List Char}
    {pos : Nat} {pst : ParseState} {argv : List String} {pst' : ParseState}
    {argv' : List String}
    (h : stepChar sep L c rest pos pst argv = some (pst', argv')) :
    pst'.firstShellPos = pst.firstShellPos ∨ pst'.firstShellPos = some pos := by
  have hor : ∀ (q : ParseState), q.firstShellPos = pst.firstShellPos →
      ∀ ch, shellFlag q ch pos = pst.firstShellPos ∨ shellFlag q ch pos = some pos := by
    intro q hq ch
    unfold shellFlag
    split_ifs <;> simp [hq]
  cases hib : pst.ignBackslashes <;>
    simp only [stepChar, hib, Bool.not_false, Bool.not_true, if_true, if_false] at h <;>
    repeat' split at h
  all_goals
    first
      | exact Option.noConfusion h
      | (injection h with h; cases h; simp only [addToken_firstShellPos]; apply hor <;> rfl)
      | (injection h with h; cases h; left; rfl)


def charOffsets : List Char → Nat → List Nat
  | [], _ => []
  | c :: rest, pos => pos :: charOffsets rest (pos + c.utf8Size)


theorem band_right {a b : Bool} (h : (a && b) = true) : b = true := by
  cases a <;> cases b <;> simp_all

theorem getD_eq_of_ne_none {o : Option Nat} {p : Nat} (hne : (o != none) = true)
    (h : o.getD 0 = p) : o = some p := by
  cases o with
  | none => simp at hne
  | some q => simpa using h

theorem scanLoop_scf_pos (sep : String) (L : Nat) :
    ∀ (cs : List Char) (pos : Nat) (pst : ParseState) (argv : List String)
      (r : Option (List String)) (p : Nat),
      scanLoop sep L cs pos pst argv = some (r, some (.shellCharactersFound p)) →
      pst.firstShellPos = some p ∨ p ∈ charOffsets cs pos
  | [], pos, pst, argv, r, p, h => by
    left
    simp only [scanLoop, finishScan] at h
    split_ifs at h with h1 h2 h3 h4 h5 <;>
      simp only [Option.some.injEq, Prod.mk.injEq, SplitErr.shellCharactersFound.injEq] at h <;>
      first
        | exact getD_eq_of_ne_none (band_right h1) h.2
        | exact getD_eq_of_ne_none (band_right h3) h.2
        | simp at h
  | c :: rest, pos, pst, argv, r, p, h => by
    simp only [scanLoop] at h
    split_ifs at h with h1
    · left
      simp only [Option.some.injEq, Prod.mk.injEq, SplitErr.shellCharactersFound.injEq] at h
      exact getD_eq_of_ne_none (band_right h1) h.2
    · cases hs : stepChar sep L c rest pos pst argv with
      | none => rw [hs] at h; exact Option.noConfusion h
      | some pa =>
        rw [hs] at h
        obtain ⟨pst2, argv2⟩ := pa
        have hrec := scanLoop_scf_pos sep L rest (pos + c.utf8Size) pst2 argv2 r p h
        rcases hrec with hrec | hrec
        · rcases stepChar_firstShellPos hs with he | he
          · left; rw [← he]; exact hrec
          · rw [he] at hrec
            right
            simp only [charOffsets, List.mem_cons]
            exact Or.inl (Option.some.inj hrec).symm
        · right
          simp only [charOffsets, List.mem_cons]
          exact Or.inr hrec

/-- Claim C6 counterexample: on the input of the two-byte code point e-acute
followed by a dollar sign, the ShellCharactersFound error carries position 2,
the byte offset of the dollar sign, while its zero-based code-point offset is
1, so the error does not carry the code-point offset. -/
theorem c6_counterexample :
    SplitQuotes "\xe9$" Whitespace [SplitStopOnShellCharacters] =
      some (none, some (.shellCharactersFound 2)) ∧
    ("\xe9$").data.findIdx (fun c => c == Char.ofNat 36) = 1 ∧ (2 : Nat) ≠ 1 := by decide

/-- Claim C6 amended: whenever SplitQuotes fails with ShellCharactersFound the
carried position is the byte offset at which some code point of the input
starts (an element of charOffsets); it is a byte offset and not a code-point
offset, as the concrete input with a two-byte code point before the offending
dollar sign shows: the error carries byte offset 2 while the code-point index
of the dollar sign is 1. -/
theorem c6_byte_positions :
    (∀ (str sep : String) (options : List Nat) (r : Option (List String)) (p : Nat),
      SplitQuotes str sep options = some (r, some (.shellCharactersFound p)) →
      p ∈ charOffsets str.data 0) ∧
    SplitQuotes "\xe9$" Whitespace [SplitStopOnShellCharacters] =
      some (none, some (.shellCharactersFound 2)) ∧
    charOffsets ("\xe9$").data 0 = [0, 2] ∧
    ("\xe9$").data.findIdx (fun c => c == Char.ofNat 36) = 1 := by
  refine ⟨?_, by decide, by decide, by decide⟩
  intro str sep options r p h
  have h0 : (newParseState options).firstShellPos = none := rfl
  rcases scanLoop_scf_pos sep str.utf8ByteSize str.data 0 (newParseState options) [] r p h with he | he
  · rw [h0] at he; exact Option.noConfusion he
  · exact he

/-- Witness for claim C6: the general byte-offset property applied to the
concrete erroring input. -/
theorem c6_byte_positions_witness :
    2 ∈ charOffsets ("\xe9$").data 0 :=
  c6_byte_positions.1 "\xe9$" Whitespace [SplitStopOnShellCharacters] none 2 (by decide)

/-- Normalization of a parse state to the ignore-shell-characters
configuration; used to compare the ContinueAndReport run with the Ignore run. -/
def toIgnore (st : ParseState) : ParseState :=
  { st with ignShell := true, contShell := false, firstShellPos := none }

theorem addToken_toIgnore (p : ParseState) (c : Char) (pos : Nat) :
    (toIgnore p).addToken c pos = toIgnore (p.addToken c pos) := rfl



@[simp] theorem toIgnore_token (p : ParseState) : (toIgnore p).token = p.token := rfl
@[simp] theorem toIgnore_hasToken (p : ParseState) : (toIgnore p).hasToken = p.hasToken := rfl
@[simp] theorem toIgnore_escaped (p : ParseState) : (toIgnore p).escaped = p.escaped := rfl
@[simp] theorem toIgnore_inSingleQuotes (p : ParseState) :
    (toIgnore p).inSingleQuotes = p.inSingleQuotes := rfl
@[simp] theorem toIgnore_inDoubleQuotes (p : ParseState) :
    (toIgnore p).inDoubleQuotes = p.inDoubleQuotes := rfl
@[simp] theorem toIgnore_firstShellPos (p : ParseState) : (toIgnore p).firstShellPos = none := rfl
@[simp] theorem toIgnore_keepBackSlash (p : ParseState) :
    (toIgnore p).keepBackSlash = p.keepBackSlash := rfl
@[simp] theorem toIgnore_keepQuote (p : ParseState) : (toIgnore p).keepQuote = p.keepQuote := rfl
@[simp] theorem toIgnore_keepSep (p : ParseState) : (toIgnore p).keepSep = p.keepSep := rfl
@[simp] theorem toIgnore_stopShell (p : ParseState) : (toIgnore p).stopShell = p.stopShell := rfl
@[simp] theorem toIgnore_contShell (p : ParseState) : (toIgnore p).contShell = false := rfl
@[simp] theorem toIgnore_ignShell (p : ParseState) : (toIgnore p).ignShell = true := rfl
@[simp] theorem toIgnore_ignBackslashes (p : ParseState) :
    (toIgnore p).ignBackslashes = p.ignBackslashes := rfl

theorem stepChar_toIgnore_none {sep : String} {L : Nat} {c : Char} {rest : List Char}
    {pos : Nat} {pst : ParseState} {argv : List String}
    (h : stepChar sep L c rest pos pst argv = none) :
    stepChar sep L c rest pos (toIgnore pst) argv = none := by
  cases hib : pst.ignBackslashes <;>
    simp only [stepChar, hib, Bool.not_false, Bool.not_true, if_true, if_false] at h <;>
    repeat' split at h
  all_goals first
    | exact Option.noConfusion h
    | simp_all [stepChar, toIgnore, ParseState.addToken, shellFlag]

theorem stepChar_toIgnore_some {sep : String} {L : Nat} {c : Char} {rest : List Char}
    {pos : Nat} {pst : ParseState} {argv : List String} {pst2 : ParseState}
    {argv2 : List String}
    (h : stepChar sep L c rest pos pst argv = some (pst2, argv2)) :
    stepChar sep L c rest pos (toIgnore pst) argv = some (toIgnore pst2, argv2) := by
  cases hib : pst.ignBackslashes <;>
    simp only [stepChar, hib, Bool.not_false, Bool.not_true, if_true, if_false] at h <;>
    repeat' split at h
  all_goals first
    | exact Option.noConfusion h
    | (injection h with h; cases h;
       simp_all [stepChar, toIgnore, ParseState.addToken, shellFlag])

theorem scanLoop_toIgnore (sep : String) (L : Nat) :
    ∀ (cs : List Char) (pos : Nat) (pst : ParseState) (argv : List String),
      pst.stopShell = false →
      (scanLoop sep L cs pos (toIgnore pst) argv).map Prod.fst =
        (scanLoop sep L cs pos pst argv).map Prod.fst
  | [], pos, pst, argv, hstop => by
    simp only [scanLoop, finishScan, toIgnore_stopShell, toIgnore_firstShellPos,
      toIgnore_contShell, toIgnore_hasToken, toIgnore_inSingleQuotes, toIgnore_inDoubleQuotes,
      toIgnore_token, hstop]
    split_ifs <;> simp_all
  | c :: rest, pos, pst, argv, hstop => by
    simp only [scanLoop, toIgnore_stopShell, toIgnore_firstShellPos, hstop, Bool.false_and,
      bne_self_eq_false, Bool.and_false, if_false]
    cases hs : stepChar sep L c rest pos pst argv with
    | none =>
      rw [stepChar_toIgnore_none hs]
      simp
    | some pa =>
      obtain ⟨pst2, argv2⟩ := pa
      rw [stepChar_toIgnore_some hs]
      exact scanLoop_toIgnore sep L rest (pos + c.utf8Size) pst2 argv2
        ((stepChar_flags hs).1.trans hstop)

theorem scanLoop_scf_argv (sep : String) (L : Nat) :
    ∀ (cs : List Char) (pos : Nat) (pst : ParseState) (argv : List String)
      (r : Option (List String)) (p : Nat), pst.stopShell = false →
      scanLoop sep L cs pos pst argv = some (r, some (.shellCharactersFound p)) →
      ∃ tokens, r = some tokens
  | [], pos, pst, argv, r, p, hstop, h => by
    simp only [scanLoop, finishScan, hstop, Bool.false_and, if_false] at h
    split_ifs at h with h1 h2 h3 <;>
      simp only [Option.some.injEq, Prod.mk.injEq] at h <;>
      first
        | exact ⟨_, h.1.symm⟩
        | simp_all
  | c :: rest, pos, pst, argv, r, p, hstop, h => by
    simp only [scanLoop, hstop, Bool.false_and, if_false] at h
    cases hs : stepChar sep L c rest pos pst argv with
    | none => rw [hs] at h; exact Option.noConfusion h
    | some pa =>
      rw [hs] at h
      obtain ⟨pst2, argv2⟩ := pa
      exact scanLoop_scf_argv sep L rest (pos + c.utf8Size) pst2 argv2 r p
        ((stepChar_flags hs).1.trans hstop) h

/-- Claim C7: under SplitContinueOnShellCharacters the scan runs to the end:
the argv component of the result is the same as under
SplitIgnoreShellCharacters, and whenever the call ends with a
ShellCharactersFound error the completed token sequence is returned alongside
it (never a nil argv); concretely the error carries the position of the first
occurrence while all tokens are present. -/
theorem c7_continue_reports_with_tokens :
    (∀ (str sep : String),
      (SplitQuotes str sep [SplitContinueOnShellCharacters]).map Prod.fst =
        (SplitQuotes str sep [SplitIgnoreShellCharacters]).map Prod.fst) ∧
    (∀ (str sep : String) (r : Option (List String)) (p : Nat),
      SplitQuotes str sep [SplitContinueOnShellCharacters] =
        some (r, some (.shellCharactersFound p)) →
      ∃ tokens, r = some tokens) ∧
    SplitQuotes "a $ b" Whitespace [SplitContinueOnShellCharacters] =
      some (some ["a", "$", "b"], some (.shellCharactersFound 2)) ∧
    SplitQuotes "a $ b $" Whitespace [SplitContinueOnShellCharacters] =
      some (some ["a", "$", "b", "$"], some (.shellCharactersFound 2)) := by
  refine ⟨?_, ?_, by decide, by decide⟩
  · intro str sep
    have hni : newParseState [SplitIgnoreShellCharacters] =
        toIgnore (newParseState [SplitContinueOnShellCharacters]) := by decide
    unfold SplitQuotes
    rw [hni]
    exact (scanLoop_toIgnore sep str.utf8ByteSize str.data 0
      (newParseState [SplitContinueOnShellCharacters]) [] (by decide)).symm
  · intro str sep r p h
    exact scanLoop_scf_argv sep str.utf8ByteSize str.data 0
      (newParseState [SplitContinueOnShellCharacters]) [] r p (by decide) h

/-- Witness for claim C7: the accompanying-tokens property applied to the
concrete erroring input. -/
theorem c7_continue_reports_with_tokens_witness :
    ∃ tokens, (some ["a", "$", "b"] : Option (List String)) = some tokens :=
  c7_continue_reports_with_tokens.2.1 "a $ b" Whitespace (some ["a", "$", "b"]) 2
    c7_continue_reports_with_tokens.2.2.1

/-- One step of the escape and quote-mode state machine of the scan loop:
the evolution of the escaped, inSingleQuotes and inDoubleQuotes flags for one
rune, as a function of the ignore-backslashes option. -/
def qstep (ign : Bool) (s : Bool × Bool × Bool) (c : Char) : Bool × Bool × Bool :=
  if s.1 then (false, s.2.1, s.2.2)
  else if c = bsChar then (!ign, s.2.1, s.2.2)
  else if c = dquoteChar then (false, s.2.1, if s.2.1 then s.2.2 else !s.2.2)
  else if c = squoteChar then (false, if s.2.2 then s.2.1 else !s.2.1, s.2.2)
  else (false, s.2.1, s.2.2)

/-- The escape and quote-mode state after scanning a rune list. -/
def qscan (ign : Bool) : List Char → Bool × Bool × Bool → Bool × Bool × Bool
  | [], s => s
  | c :: rest, s => qscan ign rest (qstep ign s c)

theorem stepChar_quoteState {sep : String} {L : Nat} {c : Char} {rest : List Char}
    {pos : Nat} {pst : ParseState} {argv : List String} {pst2 : ParseState}
    {argv2 : List String}
    (h : stepChar sep L c rest pos pst argv = some (pst2, argv2)) :
    (pst2.escaped, pst2.inSingleQuotes, pst2.inDoubleQuotes) =
      qstep pst.ignBackslashes (pst.escaped, pst.inSingleQuotes, pst.inDoubleQuotes) c := by
  cases hib : pst.ignBackslashes <;>
    simp only [stepChar, hib, Bool.not_false, Bool.not_true, if_true, if_false] at h <;>
    repeat' split at h
  all_goals first
    | exact Option.noConfusion h
    | (injection h with h; cases h;
       simp_all [qstep, ParseState.addToken, shellFlag])

theorem band_left {a b : Bool} (h : (a && b) = true) : a = true := by
  cases a <;> cases b <;> simp_all

theorem scanLoop_unbalanced (sep : String) (L : Nat) :
    ∀ (cs : List Char) (pos : Nat) (pst : ParseState) (argv : List String)
      (r : Option (List String) × Option SplitErr),
      scanLoop sep L cs pos pst argv = some r →
      ((qscan pst.ignBackslashes cs (pst.escaped, pst.inSingleQuotes, pst.inDoubleQuotes)).2.1 ||
       (qscan pst.ignBackslashes cs (pst.escaped, pst.inSingleQuotes, pst.inDoubleQuotes)).2.2) = true →
      r.1 = none ∧ (r.2 = some .unbalancedQuotes ∨
        (pst.stopShell = true ∧ ∃ p, r.2 = some (.shellCharactersFound p)))
  | [], pos, pst, argv, r, h, hq => by
    simp only [qscan] at hq
    simp only [scanLoop, finishScan] at h
    split_ifs at h with h1 <;> (injection h with h; subst h) <;>
      first
        | exact ⟨rfl, Or.inl rfl⟩
        | exact ⟨rfl, Or.inr ⟨band_left h1, _, rfl⟩⟩
  | c :: rest, pos, pst, argv, r, h, hq => by
    simp only [scanLoop] at h
    split_ifs at h with h1
    · injection h with h; subst h
      exact ⟨rfl, Or.inr ⟨band_left h1, _, rfl⟩⟩
    · cases hs : stepChar sep L c rest pos pst argv with
      | none => rw [hs] at h; exact Option.noConfusion h
      | some pa =>
        rw [hs] at h
        obtain ⟨pst2, argv2⟩ := pa
        have hqs := stepChar_quoteState hs
        have hflags := stepChar_flags hs
        have hq2 : ((qscan pst2.ignBackslashes rest
              (pst2.escaped, pst2.inSingleQuotes, pst2.inDoubleQuotes)).2.1 ||
            (qscan pst2.ignBackslashes rest
              (pst2.escaped, pst2.inSingleQuotes, pst2.inDoubleQuotes)).2.2) = true := by
          rw [hflags.2.2.2.1, hqs]
          simpa [qscan] using hq
        have hrec := scanLoop_unbalanced sep L rest (pos + c.utf8Size) pst2 argv2 r h hq2
        refine ⟨hrec.1, ?_⟩
        rcases hrec.2 with hu | ⟨hst, hp⟩
        · exact Or.inl hu
        · exact Or.inr ⟨hflags.1.symm.trans hst, hp⟩

/-- Claim C8 amended: whenever the scan completes on an input whose final
quote-mode state is still single- or double-quote (per the qscan state
machine), SplitQuotes returns a nil token list, and the error is
UnbalancedQuotes unless the StopOnFirst policy has already flagged a shell
metacharacter, in which case ShellCharactersFound is returned instead, still
with no tokens; concretely an unbalanced single quote fails with
UnbalancedQuotes and nil tokens. -/
theorem c8_unbalanced_no_tokens :
    (∀ (str sep : String) (options : List Nat) (r : Option (List String) × Option SplitErr),
      SplitQuotes str sep options = some r →
      ((qscan (newParseState options).ignBackslashes str.data (false, false, false)).2.1 ||
       (qscan (newParseState options).ignBackslashes str.data (false, false, false)).2.2) = true →
      r.1 = none ∧ (r.2 = some .unbalancedQuotes ∨
        ((newParseState options).stopShell = true ∧
          ∃ p, r.2 = some (.shellCharactersFound p)))) ∧
    SplitQuotes "test \x27arg1 arg2" Whitespace [SplitStopOnShellCharacters] =
      some (none, some .unbalancedQuotes) := by
  refine ⟨?_, by decide⟩
  intro str sep options r h hq
  exact scanLoop_unbalanced sep str.utf8ByteSize str.data 0 (newParseState options) [] r h hq

/-- Claim C8 counterexample: on the input of a double quote followed by a
dollar sign under StopOnFirst, end-of-input is reached while double-quote mode
is still active, yet SplitQuotes fails with ShellCharactersFound at position 1
and not with UnbalancedQuotes. -/
theorem c8_counterexample :
    (qscan false ("\x22$").data (false, false, false)).2.2 = true ∧
    SplitQuotes "\x22$" Whitespace [SplitStopOnShellCharacters] =
      some (none, some (.shellCharactersFound 1)) ∧
    (some (SplitErr.shellCharactersFound 1) : Option SplitErr) ≠ some .unbalancedQuotes := by
  decide

/-- Witness for claim C8: the general no-tokens property applied to the
concrete unbalanced input. -/
theorem c8_unbalanced_no_tokens_witness :
    (none : Option (List String)) = none ∧
    ((some SplitErr.unbalancedQuotes : Option SplitErr) = some .unbalancedQuotes ∨
      ((newParseState [SplitStopOnShellCharacters]).stopShell = true ∧
        ∃ p, (some SplitErr.unbalancedQuotes : Option SplitErr) =
          some (.shellCharactersFound p))) :=
  c8_unbalanced_no_tokens.1 "test \x27arg1 arg2" Whitespace [SplitStopOnShellCharacters]
    (none, some .unbalancedQuotes) (by decide) (by decide)

theorem str_ext {a b : String} (h : a.data = b.data) : a = b := by
  cases a; cases b; exact congrArg String.mk h

theorem data_append (a b : String) : (a ++ b).data = a.data ++ b.data := rfl

theorem str_append_assoc (a b c : String) : a ++ b ++ c = a ++ (b ++ c) :=
  str_ext (by simp [data_append])

theorem str_append_empty (a : String) : a ++ "" = a := str_ext (by simp [data_append])

theorem str_empty_append (a : String) : "" ++ a = a := str_ext (by simp [data_append])

theorem push_eq_append (s : String) (c : Char) : s.push c = s ++ String.singleton c := rfl

theorem singleton_append_mk (c : Char) (cs : List Char) :
    String.singleton c ++ String.mk cs = String.mk (c :: cs) := rfl

theorem mk_nil : String.mk [] = "" := rfl

/-- Concatenation of a token list in order, for the round-trip statement. -/
def concatTokens : List String → String
  | [] => ""
  | t :: rest => t ++ concatTokens rest

theorem concatTokens_append_tok (l : List String) (t : String) :
    concatTokens (l ++ [t]) = concatTokens l ++ t := by
  induction l with
  | nil => simp [concatTokens, str_empty_append, str_append_empty]
  | cons a l ih =>
    show a ++ concatTokens (l ++ [t]) = a ++ concatTokens l ++ t
    rw [ih, str_append_assoc]

theorem dq_ne_bs : ¬dquoteChar = bsChar := by decide

theorem sq_ne_bs : ¬squoteChar = bsChar := by decide

theorem sq_ne_dq : ¬squoteChar = dquoteChar := by decide

/-- The parse state shape maintained by a SplitKeepAll scan: all keep options
set, shell detection ignored, backslash escaping active. -/
def keepAllSt (tok : String) (ht esc sq dq : Bool) : ParseState :=
  { token := tok, hasToken := ht, escaped := esc, inSingleQuotes := sq, inDoubleQuotes := dq,
    firstShellPos := none, keepBackSlash := true, keepQuote := true, keepSep := true,
    stopShell := false, contShell := false, ignShell := true, ignBackslashes := false }

theorem stepChar_keepAll (sep : String) (L : Nat) (c : Char) (rest : List Char) (pos : Nat)
    (tok : String) (ht esc sq dq : Bool) (argv : List String)
    (hht : ht = false → tok = "") :
    ∃ tok2 ht2 esc2 sq2 dq2 argv2,
      stepChar sep L c rest pos (keepAllSt tok ht esc sq dq) argv =
        some (keepAllSt tok2 ht2 esc2 sq2 dq2, argv2) ∧
      (ht2 = false → tok2 = "") ∧
      concatTokens argv2 ++ tok2 = concatTokens argv ++ tok ++ String.singleton c := by
  have hpush : ∀ t : String, concatTokens argv ++ t.push c =
      concatTokens argv ++ t ++ String.singleton c := by
    intro t
    rw [push_eq_append, str_append_assoc]
  by_cases hesc : esc = true
  · exact ⟨tok.push c, true, false, sq, dq, argv,
      by simp [stepChar, keepAllSt, ParseState.addToken, shellFlag, dq_ne_bs, sq_ne_bs, sq_ne_dq, hesc],
      by simp, hpush tok⟩
  rw [Bool.not_eq_true] at hesc
  subst hesc
  by_cases hbs : c = bsChar
  · exact ⟨tok.push c, true, true, sq, dq, argv,
      by simp [stepChar, keepAllSt, ParseState.addToken, shellFlag, dq_ne_bs, sq_ne_bs, sq_ne_dq, hbs],
      by simp, hpush tok⟩
  by_cases hdq : c = dquoteChar
  · by_cases hsq : sq = true
    · exact ⟨tok.push c, true, false, sq, dq, argv,
        by simp [stepChar, keepAllSt, ParseState.addToken, shellFlag, dq_ne_bs, sq_ne_bs, sq_ne_dq, hbs, hdq, hsq],
        by simp, hpush tok⟩
    · rw [Bool.not_eq_true] at hsq
      subst hsq
      exact ⟨tok.push c, true, false, false, !dq, argv,
        by simp [stepChar, keepAllSt, ParseState.addToken, shellFlag, dq_ne_bs, sq_ne_bs, sq_ne_dq, hbs, hdq],
        by simp, hpush tok⟩
  by_cases hsq2 : c = squoteChar
  · by_cases hdq2 : dq = true
    · exact ⟨tok.push c, true, false, sq, dq, argv,
        by simp [stepChar, keepAllSt, ParseState.addToken, shellFlag, dq_ne_bs, sq_ne_bs, sq_ne_dq, hbs, hdq, hsq2, hdq2],
        by simp, hpush tok⟩
    · rw [Bool.not_eq_true] at hdq2
      subst hdq2
      exact ⟨tok.push c, true, false, !sq, false, argv,
        by simp [stepChar, keepAllSt, ParseState.addToken, shellFlag, dq_ne_bs, sq_ne_bs, sq_ne_dq, hbs, hdq, hsq2],
        by simp, hpush tok⟩
  by_cases hsep : goContainsRune sep c = true
  · by_cases hq : (sq || dq) = true
    · exact ⟨tok.push c, true, false, sq, dq, argv,
        by simp [stepChar, keepAllSt, ParseState.addToken, shellFlag, dq_ne_bs, sq_ne_bs, sq_ne_dq, hbs, hdq, hsq2, hsep, hq],
        by simp, hpush tok⟩
    · by_cases hht2 : ht = true
      · refine ⟨"", false, false, sq, dq, argv ++ [tok] ++ [String.singleton c],
          by simp [stepChar, keepAllSt, ParseState.addToken, shellFlag, dq_ne_bs, sq_ne_bs, sq_ne_dq, hbs, hdq, hsq2, hsep,
            hq, hht2],
          by simp, ?_⟩
        rw [concatTokens_append_tok, concatTokens_append_tok, str_append_empty]
      · rw [Bool.not_eq_true] at hht2
        have htok : tok = "" := hht hht2
        subst htok
        subst hht2
        refine ⟨"", false, false, sq, dq, argv ++ [String.singleton c],
          by simp [stepChar, keepAllSt, ParseState.addToken, shellFlag, dq_ne_bs, sq_ne_bs, sq_ne_dq, hbs, hdq, hsq2, hsep,
            hq],
          by simp, ?_⟩
        rw [concatTokens_append_tok, str_append_empty, str_append_empty]
  · exact ⟨tok.push c, true, false, sq, dq, argv,
      by simp [stepChar, keepAllSt, ParseState.addToken, shellFlag, dq_ne_bs, sq_ne_bs, sq_ne_dq, hbs, hdq, hsq2, hsep],
      by simp, hpush tok⟩


@[simp] theorem keepAllSt_token (tok : String) (ht esc sq dq : Bool) :
    (keepAllSt tok ht esc sq dq).token = tok := rfl
@[simp] theorem keepAllSt_hasToken (tok : String) (ht esc sq dq : Bool) :
    (keepAllSt tok ht esc sq dq).hasToken = ht := rfl
@[simp] theorem keepAllSt_inSingleQuotes (tok : String) (ht esc sq dq : Bool) :
    (keepAllSt tok ht esc sq dq).inSingleQuotes = sq := rfl
@[simp] theorem keepAllSt_inDoubleQuotes (tok : String) (ht esc sq dq : Bool) :
    (keepAllSt tok ht esc sq dq).inDoubleQuotes = dq := rfl
@[simp] theorem keepAllSt_firstShellPos (tok : String) (ht esc sq dq : Bool) :
    (keepAllSt tok ht esc sq dq).firstShellPos = none := rfl
@[simp] theorem keepAllSt_stopShell (tok : String) (ht esc sq dq : Bool) :
    (keepAllSt tok ht esc sq dq).stopShell = false := rfl
@[simp] theorem keepAllSt_contShell (tok : String) (ht esc sq dq : Bool) :
    (keepAllSt tok ht esc sq dq).contShell = false := rfl

theorem scanLoop_keepAll (sep : String) (L : Nat) :
    ∀ (cs : List Char) (pos : Nat) (tok : String) (ht esc sq dq : Bool)
      (argv out : List String),
      (ht = false → tok = "") →
      scanLoop sep L cs pos (keepAllSt tok ht esc sq dq) argv = some (some out, none) →
      concatTokens out = concatTokens argv ++ (tok ++ String.mk cs)
  | [], pos, tok, ht, esc, sq, dq, argv, out, hht, h => by
    simp only [scanLoop, finishScan, keepAllSt_stopShell, keepAllSt_firstShellPos,
      keepAllSt_hasToken, keepAllSt_token, keepAllSt_inSingleQuotes, keepAllSt_inDoubleQuotes,
      keepAllSt_contShell, Bool.false_and, Bool.false_eq_true, if_false,
      bne_self_eq_false] at h
    split_ifs at h with h1 h2 <;>
      simp only [Option.some.injEq, Prod.mk.injEq] at h <;>
      first
        | exact Option.noConfusion h.1
        | (rw [← h.1, concatTokens_append_tok]; simp [mk_nil, str_append_empty])
        | (rw [← h.1, hht (by simpa using h2)]; simp [concatTokens, mk_nil, str_append_empty])
  | c :: rest, pos, tok, ht, esc, sq, dq, argv, out, hht, h => by
    obtain ⟨tok2, ht2, esc2, sq2, dq2, argv2, hstep, hht2, hcat⟩ :=
      stepChar_keepAll sep L c rest pos tok ht esc sq dq argv hht
    simp only [scanLoop, keepAllSt_stopShell, keepAllSt_firstShellPos, Bool.false_and,
      Bool.false_eq_true, if_false, bne_self_eq_false, hstep] at h
    have hrec := scanLoop_keepAll sep L rest (pos + c.utf8Size) tok2 ht2 esc2 sq2 dq2
      argv2 out hht2 h
    rw [hrec]
    rw [show String.mk (c :: rest) = String.singleton c ++ String.mk rest from rfl]
    calc concatTokens argv2 ++ (tok2 ++ String.mk rest)
        = (concatTokens argv2 ++ tok2) ++ String.mk rest := (str_append_assoc _ _ _).symm
      _ = (concatTokens argv ++ tok ++ String.singleton c) ++ String.mk rest := by rw [hcat]
      _ = concatTokens argv ++ (tok ++ (String.singleton c ++ String.mk rest)) := by
            rw [str_append_assoc, str_append_assoc]

theorem mk_data (s : String) : String.mk s.data = s := rfl

/-- Claim C10: for every input string and separator set, when SplitQuotes is
called with the SplitKeepAll option bundle and returns without error,
concatenating the returned tokens in order reproduces exactly the original
input string. -/
theorem c10_keepall_concat :
    (∀ (str sep : String) (out : List String),
      SplitQuotes str sep [SplitKeepAll] = some (some out, none) →
      concatTokens out = str) ∧
    SplitQuotes "a \x27b c\x27 d" Whitespace [SplitKeepAll] =
      some (some ["a", " ", "\x27b c\x27", " ", "d"], none) := by
  refine ⟨?_, by decide⟩
  intro str sep out h
  have h0 : newParseState [SplitKeepAll] = keepAllSt "" false false false false := by decide
  unfold SplitQuotes at h
  rw [h0] at h
  have hc := scanLoop_keepAll sep str.utf8ByteSize str.data 0 "" false false false false
    [] out (fun _ => rfl) h
  simpa [concatTokens, str_empty_append, mk_data] using hc

/-- Witness for claim C10: the concatenation identity applied to a concrete
quoted input. -/
theorem c10_keepall_concat_witness :
    concatTokens ["a", " ", "\x27b c\x27", " ", "d"] = "a \x27b c\x27 d" :=
  c10_keepall_concat.1 "a \x27b c\x27 d" Whitespace ["a", " ", "\x27b c\x27", " ", "d"]
    c10_keepall_concat.2

/-- Rune constant for the space character. -/
def spaceChar : Char := Char.ofNat 32

/-- Joining a token list with a single space separator. -/
def joinWithSpace : List String → String
  | [] => ""
  | [t] => t
  | t :: rest => t ++ " " ++ joinWithSpace rest

/-- A rune that is inert for the Linux profile: not Unicode whitespace, not a
quote, not a backslash and not a shell metacharacter. -/
def plainChar (c : Char) : Bool :=
  !goIsSpace c && !(c == dquoteChar) && !(c == squoteChar) && !(c == bsChar) &&
  !goContainsRune OutsideQuoteShellCharacters c

/-- Claim C9 counterexample: two adjacent empty quoted segments parse to two
empty-string tokens, every one of which trivially satisfies the proviso of the
claim; rejoining them with a single separator and re-tokenizing with SplitLinux
yields the single empty token, not an equal token sequence. -/
theorem c9_counterexample :
    SplitLinux "\x27\x27 \x27\x27" = some (.ok [] ["", ""]) ∧
    (∀ t ∈ (["", ""] : List String), ∀ c ∈ t.data, plainChar c = true) ∧
    joinWithSpace ["", ""] = " " ∧
    SplitLinux (joinWithSpace ["", ""]) = some (.ok [] [""]) ∧
    (["", ""] : List String) ≠ [""] := by
  refine ⟨by decide, ?_, by decide, by decide, by decide⟩
  intro t ht c hc
  fin_cases ht <;> simp at hc

theorem plain_not_space {c : Char} (hp : plainChar c = true) : goIsSpace c = false := by
  simp only [plainChar, Bool.and_eq_true, Bool.not_eq_true'] at hp
  exact hp.1.1.1.1

theorem plain_ne_dq {c : Char} (hp : plainChar c = true) : ¬(c = dquoteChar) := by
  simp only [plainChar, Bool.and_eq_true, Bool.not_eq_true', beq_eq_false_iff_ne, ne_eq] at hp
  exact hp.1.1.1.2

theorem plain_ne_sq {c : Char} (hp : plainChar c = true) : ¬(c = squoteChar) := by
  simp only [plainChar, Bool.and_eq_true, Bool.not_eq_true', beq_eq_false_iff_ne, ne_eq] at hp
  exact hp.1.1.2

theorem plain_ne_bs {c : Char} (hp : plainChar c = true) : ¬(c = bsChar) := by
  simp only [plainChar, Bool.and_eq_true, Bool.not_eq_true', beq_eq_false_iff_ne, ne_eq] at hp
  exact hp.1.2

theorem plain_not_outside {c : Char} (hp : plainChar c = true) :
    goContainsRune OutsideQuoteShellCharacters c = false := by
  simp only [plainChar, Bool.and_eq_true, Bool.not_eq_true'] at hp
  exact hp.2

theorem ws_space {c : Char} (h : goContainsRune Whitespace c = true) : goIsSpace c = true := by
  have hd : (Whitespace).data = [Char.ofNat 32, Char.ofNat 9, Char.ofNat 10, Char.ofNat 13] := by
    decide
  simp only [goContainsRune, hd, List.contains_cons, List.contains_nil, Bool.or_eq_true,
    beq_iff_eq, Bool.or_false] at h
  rcases h with h | h | h | h <;> subst h <;> decide

theorem plain_not_ws {c : Char} (hp : plainChar c = true) :
    goContainsRune Whitespace c = false := by
  cases h : goContainsRune Whitespace c
  · rfl
  · have hs := ws_space h
    rw [plain_not_space hp] at hs
    exact hs.symm

/-- The parse state shape maintained by a SplitLinux scan over plain runes:
stop-on-shell set, everything else stripped, no flag raised. -/
def linuxSt (tok : String) (ht : Bool) : ParseState :=
  { token := tok, hasToken := ht, escaped := false, inSingleQuotes := false,
    inDoubleQuotes := false, firstShellPos := none, keepBackSlash := false, keepQuote := false,
    keepSep := false, stopShell := true, contShell := false, ignShell := false,
    ignBackslashes := false }

theorem stepChar_plain {c : Char} (hp : plainChar c = true) (L : Nat) (rest : List Char)
    (pos : Nat) (tok : String) (ht : Bool) (argv : List String) :
    stepChar Whitespace L c rest pos (linuxSt tok ht) argv =
      some (linuxSt (tok.push c) true, argv) := by
  simp [stepChar, linuxSt, ParseState.addToken, shellFlag, plain_ne_bs hp, plain_ne_dq hp,
    plain_ne_sq hp, plain_not_ws hp, plain_not_outside hp]

theorem stepChar_space (L : Nat) (rest : List Char) (pos : Nat) (tok : String)
    (argv : List String) :
    stepChar Whitespace L spaceChar rest pos (linuxSt tok true) argv =
      some (linuxSt "" false, argv ++ [tok]) := by
  have h1 : ¬(spaceChar = bsChar) := by decide
  have h2 : ¬(spaceChar = dquoteChar) := by decide
  have h3 : ¬(spaceChar = squoteChar) := by decide
  have h4 : goContainsRune Whitespace spaceChar = true := by decide
  simp [stepChar, linuxSt, h1, h2, h3, h4]

theorem scanLoop_linux_end (L : Nat) (pos : Nat) (tok : String) (argv : List String) :
    scanLoop Whitespace L [] pos (linuxSt tok true) argv = some (some (argv ++ [tok]), none) := by
  simp [scanLoop, finishScan, linuxSt]

/-- Total UTF-8 byte length of a rune list. -/
def utf8Len : List Char → Nat
  | [] => 0
  | c :: rest => c.utf8Size + utf8Len rest

@[simp] theorem linuxSt_stopShell (tok : String) (ht : Bool) :
    (linuxSt tok ht).stopShell = true := rfl

@[simp] theorem linuxSt_firstShellPos (tok : String) (ht : Bool) :
    (linuxSt tok ht).firstShellPos = none := rfl

theorem scanLoop_linux_chars (L : Nat) :
    ∀ (cs : List Char) (k : List Char) (pos : Nat) (tok : String) (ht : Bool)
      (argv : List String),
      (∀ c ∈ cs, plainChar c = true) → cs ≠ [] →
      scanLoop Whitespace L (cs ++ k) pos (linuxSt tok ht) argv =
        scanLoop Whitespace L k (pos + utf8Len cs) (linuxSt (tok ++ String.mk cs) true) argv
  | [], _, _, _, _, _, _, hne => absurd rfl hne
  | c :: cs, k, pos, tok, ht, argv, hplain, _ => by
    have hc : plainChar c = true := hplain c (List.mem_cons_self c cs)
    rw [show ((c :: cs) ++ k) = c :: (cs ++ k) from rfl]
    rw [scanLoop]
    simp only [linuxSt_stopShell, linuxSt_firstShellPos, bne_self_eq_false, Bool.and_false,
      Bool.false_eq_true, if_false, stepChar_plain hc]
    cases hcs : cs with
    | nil =>
      simp only [List.nil_append]
      rw [show tok.push c = tok ++ String.mk [c] from rfl]
      rw [show pos + c.utf8Size = pos + utf8Len [c] from by simp [utf8Len]]
    | cons c2 cs2 =>
      rw [scanLoop_linux_chars L (c2 :: cs2) k (pos + c.utf8Size) (tok.push c) true argv
        (fun x hx => hplain x (List.mem_cons_of_mem c (hcs ▸ hx))) (by simp)]
      rw [show tok.push c ++ String.mk (c2 :: cs2) = tok ++ String.mk (c :: c2 :: cs2) from by
        rw [push_eq_append, str_append_assoc, singleton_append_mk]]
      rw [show pos + c.utf8Size + utf8Len (c2 :: cs2) = pos + utf8Len (c :: c2 :: cs2) from by
        simp [utf8Len]; omega]

/-- The rune list of joinWithSpace. -/
def joinData : List String → List Char
  | [] => []
  | [t] => t.data
  | t :: rest => t.data ++ spaceChar :: joinData rest

theorem joinWithSpace_data : ∀ (ts : List String), (joinWithSpace ts).data = joinData ts
  | [] => rfl
  | [_] => rfl
  | t :: t2 :: rest => by
    show (t ++ " " ++ joinWithSpace (t2 :: rest)).data = t.data ++ spaceChar :: joinData (t2 :: rest)
    rw [data_append, data_append, joinWithSpace_data (t2 :: rest)]
    simp [List.append_assoc]
    rfl

theorem scanLoop_linux_join (L : Nat) :
    ∀ (ts : List String) (pos : Nat) (argv : List String),
      (∀ t ∈ ts, t.data ≠ [] ∧ ∀ c ∈ t.data, plainChar c = true) → ts ≠ [] →
      scanLoop Whitespace L (joinData ts) pos (linuxSt "" false) argv =
        some (some (argv ++ ts), none)
  | [], _, _, _, hne => absurd rfl hne
  | [t], pos, argv, hplain, _ => by
    have ht := hplain t (by simp)
    rw [show joinData [t] = t.data ++ [] from by simp [joinData]]
    rw [scanLoop_linux_chars L t.data [] pos "" false argv ht.2 ht.1]
    rw [str_empty_append, mk_data]
    exact scanLoop_linux_end L _ t argv
  | t :: t2 :: rest, pos, argv, hplain, _ => by
    have ht := hplain t (by simp)
    rw [show joinData (t :: t2 :: rest) = t.data ++ (spaceChar :: joinData (t2 :: rest)) from rfl]
    rw [scanLoop_linux_chars L t.data (spaceChar :: joinData (t2 :: rest)) pos "" false argv
      ht.2 ht.1]
    rw [str_empty_append, mk_data]
    rw [scanLoop]
    simp only [linuxSt_stopShell, linuxSt_firstShellPos, bne_self_eq_false, Bool.and_false,
      Bool.false_eq_true, if_false, stepChar_space]
    rw [scanLoop_linux_join L (t2 :: rest) _ (argv ++ [t])
      (fun x hx => hplain x (List.mem_cons_of_mem t hx)) (by simp)]
    simp

theorem dropWhile_eq_self {p : Char → Bool} : ∀ {l : List Char},
    (∀ c, l.head? = some c → p c = false) → l.dropWhile p = l
  | [], _ => rfl
  | a :: l, h => by
    have ha := h a rfl
    simp [List.dropWhile_cons, ha]

theorem TrimSpace_eq_self {s : String}
    (hh : ∀ c, s.data.head? = some c → goIsSpace c = false)
    (hl : ∀ c, s.data.getLast? = some c → goIsSpace c = false) : TrimSpace s = s := by
  unfold TrimSpace
  rw [dropWhile_eq_self hh]
  rw [dropWhile_eq_self (fun c hc => hl c (by rwa [List.head?_reverse] at hc))]
  rw [List.reverse_reverse, mk_data]

theorem mem_of_head? {l : List Char} {c : Char} (h : l.head? = some c) : c ∈ l := by
  cases l with
  | nil => exact Option.noConfusion h
  | cons a l =>
    simp only [List.head?_cons, Option.some.injEq] at h
    exact h ▸ List.mem_cons_self a l

theorem mem_of_getLast? : ∀ {l : List Char} {c : Char}, l.getLast? = some c → c ∈ l
  | [], c, h => Option.noConfusion h
  | [a], c, h => by
    simp only [List.getLast?_singleton, Option.some.injEq] at h
    exact h ▸ List.mem_cons_self a []
  | a :: b :: l, c, h => by
    rw [List.getLast?_cons_cons] at h
    exact List.mem_cons_of_mem a (mem_of_getLast? h)

theorem joinData_head? : ∀ (t : String) (ts : List String), t.data ≠ [] →
    (joinData (t :: ts)).head? = t.data.head?
  | t, [], _ => rfl
  | t, t2 :: rest, hne => by
    show (t.data ++ spaceChar :: joinData (t2 :: rest)).head? = t.data.head?
    cases hd : t.data with
    | nil => exact absurd hd hne
    | cons a l => simp [hd]

theorem joinData_ne_nil : ∀ (t : String) (ts : List String), t.data ≠ [] →
    joinData (t :: ts) ≠ []
  | t, [], h => by simpa [joinData] using h
  | t, t2 :: rest, _ => by
    show t.data ++ spaceChar :: joinData (t2 :: rest) ≠ []
    simp

theorem joinData_getLast?_mem : ∀ (t : String) (ts : List String),
    (∀ x ∈ t :: ts, x.data ≠ []) →
    ∃ x ∈ t :: ts, (joinData (t :: ts)).getLast? = x.data.getLast?
  | t, [], _ => ⟨t, by simp, rfl⟩
  | t, t2 :: rest, h => by
    obtain ⟨x, hx, he⟩ :=
      joinData_getLast?_mem t2 rest (fun y hy => h y (List.mem_cons_of_mem t hy))
    refine ⟨x, List.mem_cons_of_mem t hx, ?_⟩
    show (t.data ++ spaceChar :: joinData (t2 :: rest)).getLast? = x.data.getLast?
    rw [List.getLast?_append_cons, ← he]
    cases hj : joinData (t2 :: rest) with
    | nil => exact absurd hj (joinData_ne_nil t2 rest (h t2 (by simp)))
    | cons b l => rw [List.getLast?_cons_cons]

theorem extractEnv_head : ∀ (l env args : List String) (a : String),
    ExtractEnvFromArgv l = (env, a :: args) → goContainsRune a eqChar = false
  | [], env, args, a, h => by
    simp only [ExtractEnvFromArgv, Prod.mk.injEq] at h
    exact absurd h.2 (by simp)
  | b :: rest, env, args, a, h => by
    unfold ExtractEnvFromArgv at h
    split_ifs at h with hb
    · simp only [Prod.mk.injEq, List.cons.injEq] at h
      rw [← h.2.1]
      simpa using hb
    · cases hr : ExtractEnvFromArgv rest with
      | mk env2 args2 =>
        rw [hr] at h
        cases args2 with
        | nil => simp at h
        | cons a2 args3 =>
          simp only [Prod.mk.injEq, List.cons.injEq] at h
          rw [← h.2.1]
          exact extractEnv_head rest env2 args3 a2 hr

theorem splitWith_ok_extract {str : String} {opts : List Nat} {env argv : List String}
    (h : splitWith str opts = some (.ok env argv)) :
    ∃ l, ExtractEnvFromArgv l = (env, argv) := by
  unfold splitWith at h
  cases hq : SplitQuotes (TrimSpace str) Whitespace opts with
  | none => rw [hq] at h; exact Option.noConfusion h
  | some pr =>
    rw [hq] at h
    obtain ⟨argvOpt, err⟩ := pr
    cases err with
    | some e => simp at h
    | none =>
      cases hE : ExtractEnvFromArgv (if (argvOpt.getD []).length = 0
          then argvOpt.getD [] ++ [""] else argvOpt.getD []) with
      | mk a b =>
        simp only [hE, Option.some.injEq, SplitRes.ok.injEq] at h
        exact ⟨_, by rw [hE, h.1, h.2]⟩

/-- Claim C9 amended: for every input that SplitLinux parses successfully,
joining the returned argument tokens with a single space and re-tokenizing
with SplitLinux reproduces the same token sequence with an empty environment
list, provided the argument list is nonempty and every returned token is
nonempty and contains only plain runes (no Unicode whitespace, quote,
backslash, or shell metacharacter). -/
theorem c9_rejoin_idempotent :
    ∀ (str : String) (env argv : List String),
      SplitLinux str = some (.ok env argv) → argv ≠ [] →
      (∀ t ∈ argv, t.data ≠ [] ∧ ∀ c ∈ t.data, plainChar c = true) →
      SplitLinux (joinWithSpace argv) = some (.ok [] argv) := by
  intro str env argv hparse hne hplain
  obtain ⟨a, rest, rfl⟩ : ∃ a rest, argv = a :: rest := by
    cases argv with
    | nil => exact absurd rfl hne
    | cons a rest => exact ⟨a, rest, rfl⟩
  obtain ⟨l, hl⟩ := splitWith_ok_extract hparse
  have hhead : goContainsRune a eqChar = false := extractEnv_head l env rest a hl
  have hplain2 : ∀ x ∈ a :: rest, x.data ≠ [] := fun x hx => (hplain x hx).1
  have hq : SplitQuotes (joinWithSpace (a :: rest)) Whitespace [SplitStopOnShellCharacters] =
      some (some (a :: rest), none) := by
    unfold SplitQuotes
    rw [show newParseState [SplitStopOnShellCharacters] = linuxSt "" false from by decide]
    rw [joinWithSpace_data]
    rw [scanLoop_linux_join _ (a :: rest) 0 [] hplain (by simp)]
    simp
  have htrim : TrimSpace (joinWithSpace (a :: rest)) = joinWithSpace (a :: rest) := by
    apply TrimSpace_eq_self
    · intro c hc
      rw [joinWithSpace_data, joinData_head? a rest (hplain a (by simp)).1] at hc
      exact plain_not_space ((hplain a (by simp)).2 c (mem_of_head? hc))
    · intro c hc
      rw [joinWithSpace_data] at hc
      obtain ⟨x, hx, he⟩ := joinData_getLast?_mem a rest hplain2
      rw [he] at hc
      exact plain_not_space ((hplain x hx).2 c (mem_of_getLast? hc))
  have hEE : ExtractEnvFromArgv (a :: rest) = ([], a :: rest) := by
    unfold ExtractEnvFromArgv
    rw [if_pos (by simp [hhead])]
  show splitWith (joinWithSpace (a :: rest)) [SplitStopOnShellCharacters] = _
  unfold splitWith
  rw [htrim]
  simp [hq, hEE]

/-- Witness for claim C9: the rejoin property applied to a two-token parse. -/
theorem c9_rejoin_idempotent_witness :
    SplitLinux (joinWithSpace ["a", "b"]) = some (.ok [] ["a", "b"]) :=
  c9_rejoin_idempotent "a b" [] ["a", "b"] (by decide) (by decide) (by decide)

end Shelltoken
